import Mathlib

/-!
Verification of `changelog_handler/version.py` (the `SemanticVersion` class).

The Python module compiles the regular expression

  SEMVAR = [Vv]?(?P<major>\d+)\.(?P<minor>\d+)\.(?P<patch>\d+)
           (-(?P<pre_release>ID+(\.ID+)*))?(\+(?P<build>ID+(\.ID+)*))?$
  with ID = [a-zA-Z0-9-]

and full-matches it against the input string.  Below the regex is embedded as
a deterministic parser over lists of characters: the regex is unambiguous (a
digit run cannot be split, the pre-release section extends to the first `+`
or the end of the string, and the optional groups are committed by their
leading `-`/`+` characters), so the parser computes exactly the full-match
result with the same capture groups.  `\d` is modelled as the ASCII digits.

Constructor failure modes (TypeError for non-string input, the
InvalidSemanticVersion exception with its two messages, and the IndexError
raised by the leading-zero loop when the pre-release group is empty) are
modelled by the `InitResult` type.  Python comparison-operator dispatch
(`__eq__`/`__lt__` returning `NotImplemented`, reflected calls, the
`functools.total_ordering` derived `__gt__`, and the identity fallback of
`==`) is modelled explicitly.
-/

namespace ChangelogHandler

/-- The character class `[a-zA-Z0-9-]` (called IDENTIFIER in the source). -/
def isIdentChar (c : Char) : Bool := c.isAlpha || c.isDigit || c == '-'

/-- Python `s.split('.')` on a list of characters: always returns at least one
(possibly empty) part; `[]` splits to `[[]]` just as `''.split('.') == ['']`. -/
def splitOnDot : List Char → List (List Char)
  | [] => [[]]
  | c :: rest =>
    let r := splitOnDot rest
    if c == '.' then [] :: r else (c :: r.headD []) :: r.tail

/-- Full match of `DOTSEP_ID = ID+(\.ID+)*`: every dot-separated part is
non-empty and consists of identifier characters. -/
def isDotSepId (cs : List Char) : Bool :=
  (splitOnDot cs).all (fun p => !p.isEmpty && p.all isIdentChar)

/-- Greedy `\d+`-style split: the longest digit run and the remainder. -/
def splitDigits : List Char → List Char × List Char
  | [] => ([], [])
  | c :: cs =>
    if c.isDigit then
      let r := splitDigits cs
      (c :: r.1, r.2)
    else ([], c :: cs)

/-- The optional `[Vv]?` at the start of the regex. -/
def stripV : List Char → List Char
  | [] => []
  | c :: cs => if c == 'v' || c == 'V' then cs else c :: cs

/-- The capture groups of a successful `SEMVAR.fullmatch`, after
`groupdict(default='')`: unmatched optional groups are empty strings. -/
structure MatchGroups where
  major : String
  minor : String
  patch : String
  preRelease : String
  build : String
deriving DecidableEq

/-- `(?P<major>\d+)\.(?P<minor>\d+)\.(?P<patch>\d+)`: the three digit runs
and the remaining characters. -/
def parseCore (cs : List Char) : Option (String × String × String × List Char) :=
  let r1 := splitDigits cs
  if r1.1.isEmpty then none else
  match r1.2 with
  | '.' :: t1 =>
    let r2 := splitDigits t1
    if r2.1.isEmpty then none else
    match r2.2 with
    | '.' :: t2 =>
      let r3 := splitDigits t2
      if r3.1.isEmpty then none else
      some (⟨r1.1⟩, ⟨r2.1⟩, ⟨r3.1⟩, r3.2)
    | _ => none
  | _ => none

/-- `(-(?P<pre_release>DOTSEP_ID))?(\+(?P<build>DOTSEP_ID))?$` applied to what
remains after the core: the pre-release section runs to the first `+` (its
character class excludes `+`) or to the end of the input. -/
def parseTail (cs : List Char) : Option (String × String) :=
  match cs with
  | [] => some ("", "")
  | c :: rest =>
    if c == '-' then
      if isDotSepId (rest.takeWhile (fun x => x != '+')) then
        match rest.dropWhile (fun x => x != '+') with
        | [] => some (⟨rest.takeWhile (fun x => x != '+')⟩, "")
        | '+' :: b =>
          if isDotSepId b then some (⟨rest.takeWhile (fun x => x != '+')⟩, ⟨b⟩) else none
        | _ => none
      else none
    else if c == '+' then
      if isDotSepId rest then some ("", ⟨rest⟩) else none
    else none

/-- `SEMVAR.fullmatch(version)` followed by `groupdict(default='')`. -/
def semvarFullmatch (s : String) : Option MatchGroups :=
  (parseCore (stripV s.toList)).bind fun r =>
    (parseTail r.2.2.2).map fun pb =>
      { major := r.1, minor := r.2.1, patch := r.2.2.1
        preRelease := pb.1, build := pb.2 }

/-- Numeric value of an ASCII digit character. -/
def digitVal (c : Char) : Nat := c.toNat - 48

/-- Python `int` applied to a run of decimal digits (leading zeros allowed). -/
def natOfDigits (cs : List Char) : Nat :=
  cs.foldl (fun a c => 10 * a + digitVal c) 0

/-- `int(results[...])` on a captured digit-run group. -/
def pyInt (s : String) : Nat := natOfDigits s.toList

/-- The state of a fully initialised `SemanticVersion` object:
`_major`, `_minor`, `_patch`, `_preRelease`, `_build`. -/
structure SemanticVersion where
  major : Nat
  minor : Nat
  patch : Nat
  preRelease : String
  build : String
deriving DecidableEq

/-- Message of the InvalidSemanticVersion raised on a grammar mismatch. -/
def grammarMsg : String := "version string does not contain a valid sematic version"

/-- Message of the InvalidSemanticVersion raised by the leading-zero loop. -/
def leadingZeroMsg : String := "pre-release dot separated identifiers must not include leading zeros"

/-- Outcome of running `SemanticVersion.__init__`: a constructed object or
one of the exceptions the constructor can raise. -/
inductive InitResult where
  | ok (v : SemanticVersion)
  | invalid (msg : String)
  | indexError
  | typeError
deriving DecidableEq

/-- The validation loop
`for p in self._preRelease.split('.'): if p != '0' and p[0] == '0': raise ...`.
When `p` is the empty string, `p != '0'` is true and `p[0]` raises IndexError. -/
def checkPre : List (List Char) → Option InitResult
  | [] => none
  | p :: rest =>
    if p != ['0'] then
      match p with
      | [] => some .indexError
      | c :: _ => if c == '0' then some (.invalid leadingZeroMsg) else checkPre rest
    else checkPre rest

/-- `SemanticVersion.__init__` on a string argument: full-match the regex,
convert the core groups with `int`, store the pre-release and build groups,
then run the leading-zero loop over the split pre-release. -/
def SemanticVersion.init (version : String) : InitResult :=
  match semvarFullmatch version with
  | none => .invalid grammarMsg
  | some g =>
    match checkPre (splitOnDot g.preRelease.toList) with
    | some e => e
    | none => .ok ⟨pyInt g.major, pyInt g.minor, pyInt g.patch, g.preRelease, g.build⟩

/-- Decimal digit character for a value below ten. -/
def digitChar : Nat → Char
  | 0 => '0'
  | 1 => '1'
  | 2 => '2'
  | 3 => '3'
  | 4 => '4'
  | 5 => '5'
  | 6 => '6'
  | 7 => '7'
  | 8 => '8'
  | _ => '9'

/-- Decimal digits of a natural number, most significant first, computed with
explicit fuel so that the kernel can evaluate it. -/
def natDigitsAux : Nat → Nat → List Char
  | 0, _ => []
  | fuel + 1, n =>
    if n < 10 then [digitChar n]
    else natDigitsAux fuel (n / 10) ++ [digitChar (n % 10)]

/-- Decimal digits of a natural number, most significant first. -/
def natDigits (n : Nat) : List Char := natDigitsAux (n + 1) n

/-- Python `str`/f-string formatting of a non-negative integer. -/
def pyNatStr (n : Nat) : String := ⟨natDigits n⟩

/-- `SemanticVersion.__str__`: the core, then `-pre` when the stored
pre-release string is truthy (non-empty), then `+build` likewise. -/
def SemanticVersion.toString (v : SemanticVersion) : String :=
  let rtn := pyNatStr v.major ++ "." ++ pyNatStr v.minor ++ "." ++ pyNatStr v.patch
  let rtn := if v.preRelease != "" then rtn ++ "-" ++ v.preRelease else rtn
  if v.build != "" then rtn ++ "+" ++ v.build else rtn

/-- A Python value appearing as the right operand of a comparison: a
`SemanticVersion` instance or a value of an unrelated built-in type. -/
inductive PyValue where
  | semver (v : SemanticVersion)
  | str (s : String)
  | int (n : Int)
  | pyNone
deriving DecidableEq

/-- Result of calling one comparison dunder method: a boolean or the
`NotImplemented` sentinel. -/
inductive DunderResult where
  | bool (b : Bool)
  | notImplemented
deriving DecidableEq

/-- `SemanticVersion.__eq__`: a field comparison (build metadata excluded)
against another `SemanticVersion`, `NotImplemented` otherwise. -/
def dunderEq (self : SemanticVersion) (other : PyValue) : DunderResult :=
  match other with
  | .semver o =>
    .bool (self.major == o.major && self.minor == o.minor
      && self.patch == o.patch && self.preRelease == o.preRelease)
  | _ => .notImplemented

/-- `SemanticVersion.__lt__`: the body is `if isinstance(...): pass` followed
by `return NotImplemented`, so every call returns `NotImplemented`. -/
def dunderLt (self : SemanticVersion) (other : PyValue) : DunderResult :=
  match other with
  | .semver _ => .notImplemented
  | _ => .notImplemented

/-- Python `==`: try `__eq__`, then the reflected `__eq__`, then fall back to
identity (distinct values of unrelated types compare unequal). -/
def pyEqOp (a : SemanticVersion) (other : PyValue) : Bool :=
  match dunderEq a other with
  | .bool b => b
  | .notImplemented =>
    match (match other with
           | .semver o => dunderEq o (.semver a)
           | _ => .notImplemented) with
    | .bool b => b
    | .notImplemented => false

/-- `__gt__` supplied by `functools.total_ordering` from `__lt__`: forwards
`NotImplemented`, otherwise `not (self < other) and self != other`. -/
def dunderGt (self : SemanticVersion) (other : PyValue) : DunderResult :=
  match dunderLt self other with
  | .notImplemented => .notImplemented
  | .bool b => .bool (!b && !(pyEqOp self other))

/-- Outcome of evaluating a comparison operator expression: a boolean, or the
TypeError Python raises when both dunder calls return `NotImplemented`. -/
inductive PyCmpOutcome where
  | bool (b : Bool)
  | typeError
deriving DecidableEq

/-- Python `a < b` with a `SemanticVersion` left operand: `a.__lt__(b)`, then
the reflected `b.__gt__(a)`, then TypeError. -/
def pyLtOp (a : SemanticVersion) (other : PyValue) : PyCmpOutcome :=
  match dunderLt a other with
  | .bool b => .bool b
  | .notImplemented =>
    match (match other with
           | .semver o => dunderGt o (.semver a)
           | _ => .notImplemented) with
    | .bool b => .bool b
    | .notImplemented => .typeError

/-- Python `a > b` with a `SemanticVersion` left operand: `a.__gt__(b)`, then
the reflected `b.__lt__(a)`, then TypeError. -/
def pyGtOp (a : SemanticVersion) (other : PyValue) : PyCmpOutcome :=
  match dunderGt a other with
  | .bool b => .bool b
  | .notImplemented =>
    match (match other with
           | .semver o => dunderLt o (.semver a)
           | _ => .notImplemented) with
    | .bool b => .bool b
    | .notImplemented => .typeError

/-- `SemanticVersion(version)` on an arbitrary Python value: the
`isinstance(version, str)` check runs before any grammar matching. -/
def initPy (x : PyValue) : InitResult :=
  match x with
  | .str s => SemanticVersion.init s
  | _ => .typeError

/-- Does some part trigger the code's leading-zero rejection: the part is not
exactly `0` and its first character is `0`? -/
def hasLeadingZeroId (parts : List (List Char)) : Bool :=
  parts.any (fun p => p != ['0'] && p.headD 'x' == '0')

/-- Modelled from the spec: the leading-zero condition as the specification
states it — the part consists entirely of digits, has length greater than 1
and starts with `0`.  Used to compare the spec's rule with the code's. -/
def specLeadingZeroViolation (p : List Char) : Bool :=
  p.all Char.isDigit && decide (p.length > 1) && p.headD 'x' == '0'

/-! ## Basic lemmas about strings and lists -/

@[simp]
theorem toList_mk (l : List Char) : (String.mk l).toList = l := rfl

theorem string_mk_toList (s : String) : (String.mk s.toList) = s := by
  cases s
  rfl

@[simp]
theorem toList_append (a b : String) : (a ++ b).toList = a.toList ++ b.toList := by
  cases a
  cases b
  rfl

theorem takeWhile_append_all (p : Char → Bool) (xs ys : List Char)
    (h : ∀ x ∈ xs, p x = true) :
    (xs ++ ys).takeWhile p = xs ++ ys.takeWhile p := by
  induction xs with
  | nil => simp
  | cons a l ih =>
    have ha := h a (by simp)
    simp only [List.cons_append, List.takeWhile_cons, ha, if_true]
    rw [ih (fun x hx => h x (by simp [hx]))]

theorem dropWhile_append_all (p : Char → Bool) (xs ys : List Char)
    (h : ∀ x ∈ xs, p x = true) :
    (xs ++ ys).dropWhile p = ys.dropWhile p := by
  induction xs with
  | nil => simp
  | cons a l ih =>
    have ha := h a (by simp)
    simp only [List.cons_append, List.dropWhile_cons, ha, if_true]
    exact ih (fun x hx => h x (by simp [hx]))

theorem isEmpty_false_of_ne {l : List Char} (h : l ≠ []) : l.isEmpty = false := by
  cases l with
  | nil => exact absurd rfl h
  | cons a l => rfl

/-! ## Lemmas about `splitOnDot` and `isDotSepId` -/

theorem splitOnDot_ne_nil (cs : List Char) : splitOnDot cs ≠ [] := by
  cases cs with
  | nil => simp [splitOnDot]
  | cons c rest =>
    simp only [splitOnDot]
    split <;> simp

theorem splitOnDot_chars (cs : List Char)
    (h : ∀ p ∈ splitOnDot cs, ∀ c ∈ p, isIdentChar c = true) :
    ∀ c ∈ cs, c = '.' ∨ isIdentChar c = true := by
  induction cs with
  | nil => simp
  | cons a rest ih =>
    intro c hc
    rw [List.mem_cons] at hc
    by_cases ha : a = '.'
    · have hsplit : splitOnDot (a :: rest) = [] :: splitOnDot rest := by
        simp [splitOnDot, ha]
      rcases hc with rfl | hc
      · exact Or.inl ha
      · refine ih ?_ c hc
        intro p hp c' hc'
        exact h p (by rw [hsplit]; exact List.mem_cons_of_mem _ hp) c' hc'
    · obtain ⟨q, qs, hq⟩ : ∃ q qs, splitOnDot rest = q :: qs := by
        cases hsp : splitOnDot rest with
        | nil => exact absurd hsp (splitOnDot_ne_nil rest)
        | cons q qs => exact ⟨q, qs, rfl⟩
      have hbeq : (a == '.') = false := beq_eq_false_iff_ne.mpr ha
      have hsplit : splitOnDot (a :: rest) = (a :: q) :: qs := by
        simp [splitOnDot, hbeq, hq]
      rcases hc with rfl | hc
      · exact Or.inr (h (c :: q) (by rw [hsplit]; simp) c (by simp))
      · refine ih ?_ c hc
        intro p hp c' hc'
        rw [hq, List.mem_cons] at hp
        rcases hp with rfl | hp
        · exact h (a :: p) (by rw [hsplit]; simp) c' (by simp [hc'])
        · exact h p (by rw [hsplit]; simp [hp]) c' hc'

theorem isDotSepId_parts (cs : List Char) (h : isDotSepId cs = true) :
    ∀ p ∈ splitOnDot cs, p ≠ [] ∧ (∀ c ∈ p, isIdentChar c = true) := by
  intro p hp
  have hall := List.all_eq_true.mp h p hp
  rw [Bool.and_eq_true] at hall
  rcases hall with ⟨h1, h2⟩
  constructor
  · intro hnil
    rw [hnil] at h1
    simp at h1
  · exact List.all_eq_true.mp h2

theorem isDotSepId_no_plus (cs : List Char) (h : isDotSepId cs = true) :
    ∀ c ∈ cs, (c != '+') = true := by
  intro c hc
  have hch := splitOnDot_chars cs (fun p hp => (isDotSepId_parts cs h p hp).2) c hc
  rcases hch with rfl | hid
  · decide
  · have hne : c ≠ '+' := by
      intro hcp
      rw [hcp] at hid
      simp [isIdentChar] at hid
    simp [bne_iff_ne, hne]

theorem isDotSepId_nil_false : isDotSepId [] = false := by decide

/-! ## Decimal printing round-trips through `int` -/

theorem digitChar_isDigit {d : Nat} (h : d < 10) : (digitChar d).isDigit = true := by
  interval_cases d <;> decide

theorem digitVal_digitChar {d : Nat} (h : d < 10) : digitVal (digitChar d) = d := by
  interval_cases d <;> decide

theorem natOfDigits_append_singleton (xs : List Char) (c : Char) :
    natOfDigits (xs ++ [c]) = 10 * natOfDigits xs + digitVal c := by
  simp [natOfDigits, List.foldl_append]

theorem natDigitsAux_spec (fuel : Nat) : ∀ n, n < fuel →
    natDigitsAux fuel n ≠ [] ∧ (∀ c ∈ natDigitsAux fuel n, c.isDigit = true) ∧
    natOfDigits (natDigitsAux fuel n) = n := by
  induction fuel with
  | zero => intro n h; omega
  | succ f ih =>
    intro n h
    by_cases h10 : n < 10
    · refine ⟨by simp [natDigitsAux, h10], ?_, ?_⟩
      · intro c hc
        simp only [natDigitsAux, h10, if_true, List.mem_singleton] at hc
        rw [hc]
        exact digitChar_isDigit h10
      · simp only [natDigitsAux, h10, if_true]
        have : natOfDigits [digitChar n] = digitVal (digitChar n) := by
          simp [natOfDigits]
        rw [this, digitVal_digitChar h10]
    · have hdiv : n / 10 < f := by
        have hlt : n / 10 < n := Nat.div_lt_self (by omega) (by omega)
        omega
      obtain ⟨h1, h2, h3⟩ := ih (n / 10) hdiv
      have hmod : n % 10 < 10 := Nat.mod_lt _ (by omega)
      refine ⟨?_, ?_, ?_⟩
      · simp only [natDigitsAux, h10, if_false]
        simp [List.append_eq_nil]
      · intro c hc
        simp only [natDigitsAux, h10, if_false, List.mem_append, List.mem_singleton] at hc
        rcases hc with hc | hc
        · exact h2 c hc
        · rw [hc]; exact digitChar_isDigit hmod
      · simp only [natDigitsAux, h10, if_false]
        rw [natOfDigits_append_singleton, h3, digitVal_digitChar hmod]
        omega

theorem natDigits_ne_nil (n : Nat) : natDigits n ≠ [] :=
  (natDigitsAux_spec (n + 1) n (by omega)).1

theorem natDigits_digits (n : Nat) : ∀ c ∈ natDigits n, c.isDigit = true :=
  (natDigitsAux_spec (n + 1) n (by omega)).2.1

theorem natOfDigits_natDigits (n : Nat) : natOfDigits (natDigits n) = n :=
  (natDigitsAux_spec (n + 1) n (by omega)).2.2

theorem pyInt_pyNatStr (n : Nat) : pyInt (pyNatStr n) = n := by
  show natOfDigits (String.toList (String.mk (natDigits n))) = n
  rw [toList_mk, natOfDigits_natDigits]

@[simp]
theorem pyNatStr_toList (n : Nat) : (pyNatStr n).toList = natDigits n := rfl

@[simp]
theorem pyNatStr_data (n : Nat) : (pyNatStr n).data = natDigits n := rfl

theorem isDigit_not_vV {c : Char} (h : c.isDigit = true) : (c == 'v' || c == 'V') = false := by
  by_cases h1 : c = 'v'
  · rw [h1] at h; exact absurd h (by decide)
  · by_cases h2 : c = 'V'
    · rw [h2] at h; exact absurd h (by decide)
    · simp [beq_eq_false_iff_ne.mpr h1, beq_eq_false_iff_ne.mpr h2]

/-! ## `splitDigits` and `parseCore` on well-formed input -/

theorem splitDigits_of_digits (ds rest : List Char)
    (hd : ∀ c ∈ ds, c.isDigit = true)
    (hr : ∀ c, rest.head? = some c → c.isDigit = false) :
    splitDigits (ds ++ rest) = (ds, rest) := by
  induction ds with
  | nil =>
    cases rest with
    | nil => rfl
    | cons c cs =>
      have := hr c rfl
      simp [splitDigits, this]
  | cons c l ih =>
    have hc := hd c (by simp)
    have ihr := ih (fun x hx => hd x (by simp [hx]))
    simp only [List.cons_append, splitDigits, hc, if_true]
    rw [show l.append rest = l ++ rest from rfl, ihr]

theorem parseCore_digits (a b c : Nat) (rest : List Char)
    (hr : ∀ ch, rest.head? = some ch → ch.isDigit = false) :
    parseCore (natDigits a ++ '.' :: (natDigits b ++ '.' :: (natDigits c ++ rest)))
      = some (pyNatStr a, pyNatStr b, pyNatStr c, rest) := by
  have hdot : ∀ ch : Char, (('.' :: (natDigits b ++ '.' :: (natDigits c ++ rest))).head? = some ch)
      → ch.isDigit = false := by
    intro ch h
    injection h with h
    rw [← h]
    decide
  have hdot2 : ∀ ch : Char, (('.' :: (natDigits c ++ rest)).head? = some ch)
      → ch.isDigit = false := by
    intro ch h
    injection h with h
    rw [← h]
    decide
  have h1 := splitDigits_of_digits (natDigits a) ('.' :: (natDigits b ++ '.' :: (natDigits c ++ rest)))
    (natDigits_digits a) hdot
  have h2 := splitDigits_of_digits (natDigits b) ('.' :: (natDigits c ++ rest))
    (natDigits_digits b) hdot2
  have h3 := splitDigits_of_digits (natDigits c) rest (natDigits_digits c) hr
  unfold parseCore
  rw [h1]
  simp only [isEmpty_false_of_ne (natDigits_ne_nil a), Bool.false_eq_true, if_false]
  rw [h2]
  simp only [isEmpty_false_of_ne (natDigits_ne_nil b), Bool.false_eq_true, if_false]
  rw [h3]
  simp only [isEmpty_false_of_ne (natDigits_ne_nil c), Bool.false_eq_true, if_false]
  rfl

/-! ## `checkPre` lemmas -/

theorem checkPre_nil_part (rest : List (List Char)) :
    checkPre ([] :: rest) = some .indexError := rfl

theorem checkPre_zero (rest : List (List Char)) :
    checkPre (['0'] :: rest) = checkPre rest := rfl

theorem checkPre_cons (c : Char) (p' : List Char) (rest : List (List Char))
    (h0 : c :: p' ≠ ['0']) :
    checkPre ((c :: p') :: rest)
      = if c == '0' then some (.invalid leadingZeroMsg) else checkPre rest := by
  have hstep : checkPre ((c :: p') :: rest)
      = if ((c :: p') != ['0']) = true then
          (if c == '0' then some (.invalid leadingZeroMsg) else checkPre rest)
        else checkPre rest := rfl
  rw [hstep, if_pos (bne_iff_ne.mpr h0)]

theorem checkPre_classify (parts : List (List Char)) (e : InitResult)
    (h : checkPre parts = some e) :
    e = .indexError ∨ e = .invalid leadingZeroMsg := by
  induction parts with
  | nil => simp [checkPre] at h
  | cons p rest ih =>
    by_cases hp0 : p = ['0']
    · subst hp0
      rw [checkPre_zero] at h
      exact ih h
    · cases p with
      | nil =>
        rw [checkPre_nil_part] at h
        injection h with h
        exact Or.inl h.symm
      | cons c p' =>
        rw [checkPre_cons c p' rest hp0] at h
        by_cases hc : (c == '0') = true
        · rw [if_pos hc] at h
          injection h with h
          exact Or.inr h.symm
        · rw [if_neg hc] at h
          exact ih h

theorem checkPre_eq_of_nonempty (parts : List (List Char))
    (h : ∀ p ∈ parts, p ≠ []) :
    checkPre parts
      = if hasLeadingZeroId parts then some (.invalid leadingZeroMsg) else none := by
  induction parts with
  | nil => simp [checkPre, hasLeadingZeroId]
  | cons p rest ih =>
    have ihr := ih (fun q hq => h q (by simp [hq]))
    cases p with
    | nil => exact absurd rfl (h [] (by simp))
    | cons c p' =>
      by_cases hp0 : c :: p' = ['0']
      · rw [hp0, checkPre_zero, ihr]
        have hany : hasLeadingZeroId (['0'] :: rest) = hasLeadingZeroId rest := by
          simp [hasLeadingZeroId]
        rw [hany]
      · rw [checkPre_cons c p' rest hp0]
        have hb : (c :: p' != ['0']) = true := bne_iff_ne.mpr hp0
        by_cases hc : (c == '0') = true
        · rw [if_pos hc]
          have hany : hasLeadingZeroId ((c :: p') :: rest) = true := by
            simp only [hasLeadingZeroId, List.any_cons, hb, List.headD_cons, hc,
              Bool.and_self, Bool.true_or]
          rw [hany, if_pos rfl]
        · have hcf : (c == '0') = false := by
            cases hb2 : (c == '0') with
            | true => exact absurd hb2 hc
            | false => rfl
          rw [if_neg hc, ihr]
          have hany : hasLeadingZeroId ((c :: p') :: rest) = hasLeadingZeroId rest := by
            simp only [hasLeadingZeroId, List.any_cons, List.headD_cons, hcf,
              Bool.and_false, Bool.false_or]
          rw [hany]

/-! ## Inversion of `parseTail` and `semvarFullmatch` -/

theorem parseTail_inv {cs : List Char} {pre bld : String}
    (h : parseTail cs = some (pre, bld)) :
    (pre = "" ∨ isDotSepId pre.toList = true)
      ∧ (bld = "" ∨ isDotSepId bld.toList = true) := by
  unfold parseTail at h
  split at h
  · injection h with h
    injection h with h1 h2
    exact ⟨Or.inl h1.symm, Or.inl h2.symm⟩
  · rename_i c rest
    split at h
    · split at h
      · rename_i hds
        split at h
        · injection h with h
          injection h with h1 h2
          refine ⟨Or.inr ?_, Or.inl h2.symm⟩
          rw [← h1, toList_mk]
          exact hds
        · rename_i b
          split at h
          · rename_i hdb
            injection h with h
            injection h with h1 h2
            constructor
            · refine Or.inr ?_
              rw [← h1, toList_mk]
              exact hds
            · refine Or.inr ?_
              rw [← h2, toList_mk]
              exact hdb
          · exact absurd h (by simp)
        · exact absurd h (by simp)
      · exact absurd h (by simp)
    · split at h
      · split at h
        · rename_i hdb
          injection h with h
          injection h with h1 h2
          refine ⟨Or.inl h1.symm, Or.inr ?_⟩
          rw [← h2, toList_mk]
          exact hdb
        · exact absurd h (by simp)
      · exact absurd h (by simp)

theorem semvarFullmatch_inv {s : String} {g : MatchGroups}
    (h : semvarFullmatch s = some g) :
    (g.preRelease = "" ∨ isDotSepId g.preRelease.toList = true)
      ∧ (g.build = "" ∨ isDotSepId g.build.toList = true) := by
  unfold semvarFullmatch at h
  rw [Option.bind_eq_some] at h
  obtain ⟨r, hr, h2⟩ := h
  rw [Option.map_eq_some'] at h2
  obtain ⟨pb, hpb, hg⟩ := h2
  obtain ⟨pre, bld⟩ := pb
  have := parseTail_inv hpb
  rw [← hg]
  exact this

/-! ## Canonical strings parse back to their groups -/

theorem parseTail_minus_eq (rest : List Char) :
    parseTail ('-' :: rest)
      = if isDotSepId (rest.takeWhile (fun x => x != '+')) then
          match rest.dropWhile (fun x => x != '+') with
          | [] => some (⟨rest.takeWhile (fun x => x != '+')⟩, "")
          | '+' :: b =>
            if isDotSepId b then some (⟨rest.takeWhile (fun x => x != '+')⟩, ⟨b⟩)
            else none
          | _ => none
        else none := rfl

theorem parseTail_canonical (pre bld : String)
    (hpre : isDotSepId pre.toList = true)
    (hb : bld = "" ∨ isDotSepId bld.toList = true) :
    parseTail ('-' :: (pre.toList
        ++ (if bld = "" then [] else '+' :: bld.toList)))
      = some (pre, bld) := by
  have hnp : ∀ x ∈ pre.toList, (x != '+') = true := isDotSepId_no_plus _ hpre
  by_cases hbe : bld = ""
  · subst hbe
    rw [if_pos rfl, List.append_nil, parseTail_minus_eq]
    have ht : (pre.toList.takeWhile (fun x => x != '+')) = pre.toList := by
      have := takeWhile_append_all (fun x => x != '+') pre.toList [] hnp
      simpa using this
    have hd : (pre.toList.dropWhile (fun x => x != '+')) = [] := by
      have := dropWhile_append_all (fun x => x != '+') pre.toList [] hnp
      simpa using this
    rw [ht, hd, if_pos hpre]
    rw [string_mk_toList]
  · rw [if_neg hbe, parseTail_minus_eq]
    rcases hb with hb | hb
    · exact absurd hb hbe
    have ht : ((pre.toList ++ '+' :: bld.toList).takeWhile (fun x => x != '+'))
        = pre.toList := by
      rw [takeWhile_append_all _ _ _ hnp]
      simp [List.takeWhile_cons]
    have hd : ((pre.toList ++ '+' :: bld.toList).dropWhile (fun x => x != '+'))
        = '+' :: bld.toList := by
      rw [dropWhile_append_all _ _ _ hnp]
      simp [List.dropWhile_cons]
    rw [ht, hd, if_pos hpre]
    show (if isDotSepId bld.toList then
        some ((⟨pre.toList⟩ : String), (⟨bld.toList⟩ : String)) else none)
      = some (pre, bld)
    rw [if_pos hb, string_mk_toList, string_mk_toList]

theorem toString_toList (v : SemanticVersion) (hpre : v.preRelease ≠ "") :
    v.toString.toList
      = natDigits v.major ++ '.' :: (natDigits v.minor ++ '.' :: (natDigits v.patch
          ++ '-' :: (v.preRelease.toList
            ++ (if v.build = "" then [] else '+' :: v.build.toList)))) := by
  have h1 : (v.preRelease != "") = true := bne_iff_ne.mpr hpre
  by_cases hb : v.build = ""
  · have h2 : (v.build != "") = false := by
      rw [hb]
      rfl
    simp [SemanticVersion.toString, h1, h2, hb]
  · have h2 : (v.build != "") = true := bne_iff_ne.mpr hb
    simp [SemanticVersion.toString, h1, h2, hb]

theorem semvarFullmatch_canonical (v : SemanticVersion)
    (hpre : isDotSepId v.preRelease.toList = true)
    (hb : v.build = "" ∨ isDotSepId v.build.toList = true) :
    semvarFullmatch v.toString
      = some ⟨pyNatStr v.major, pyNatStr v.minor, pyNatStr v.patch,
          v.preRelease, v.build⟩ := by
  have hpre_ne : v.preRelease ≠ "" := by
    intro he
    rw [he] at hpre
    exact absurd hpre (by decide)
  have htl := toString_toList v hpre_ne
  obtain ⟨c, t, hct⟩ : ∃ c t, natDigits v.major = c :: t := by
    cases hnd : natDigits v.major with
    | nil => exact absurd hnd (natDigits_ne_nil _)
    | cons c t => exact ⟨c, t, rfl⟩
  have hcd : c.isDigit = true := natDigits_digits v.major c (by rw [hct]; simp)
  have hstrip : stripV v.toString.toList = v.toString.toList := by
    rw [htl, hct]
    simp only [List.cons_append, stripV]
    rw [if_neg (by rw [isDigit_not_vV hcd]; simp)]
  have hcore := parseCore_digits v.major v.minor v.patch
    ('-' :: (v.preRelease.toList ++ (if v.build = "" then [] else '+' :: v.build.toList)))
    (by intro ch h; injection h with h; rw [← h]; decide)
  have htail := parseTail_canonical v.preRelease v.build hpre hb
  unfold semvarFullmatch
  rw [hstrip, htl, hcore, Option.some_bind]
  rw [htail]
  rfl

/-! ## Inversion of a successful construction -/

theorem init_ok_inv {s : String} {v : SemanticVersion}
    (h : SemanticVersion.init s = .ok v) :
    ∃ g, semvarFullmatch s = some g
      ∧ checkPre (splitOnDot g.preRelease.toList) = none
      ∧ v = ⟨pyInt g.major, pyInt g.minor, pyInt g.patch, g.preRelease, g.build⟩ := by
  unfold SemanticVersion.init at h
  split at h
  · exact absurd h (by simp)
  · rename_i g hg
    split at h
    · rename_i e he
      rcases checkPre_classify _ _ he with rfl | rfl <;> exact absurd h (by simp)
    · rename_i he
      refine ⟨g, hg, he, ?_⟩
      injection h with h
      exact h.symm

theorem init_ok_pre_ne {s : String} {v : SemanticVersion}
    (h : SemanticVersion.init s = .ok v) : v.preRelease ≠ "" := by
  obtain ⟨g, hg, hc, hv⟩ := init_ok_inv h
  have hvpre : v.preRelease = g.preRelease := by rw [hv]
  intro he
  rw [hvpre] at he
  rw [he] at hc
  exact absurd hc (by decide)

/-! ## The claims -/

/-- C1: for every input string the regex full-matches with an empty
pre-release group (no pre-release segment in the input), the constructor
raises IndexError — `''.split('.')` yields `['']`, the loop evaluates
`p[0]` on the empty string — so it neither returns a value nor raises
TypeError or InvalidSemanticVersion. -/
theorem claim_C1 : ∀ (s : String) (g : MatchGroups),
    semvarFullmatch s = some g → g.preRelease = "" →
    SemanticVersion.init s = .indexError := by
  intro s g hm hp
  unfold SemanticVersion.init
  rw [hm]
  show (match checkPre (splitOnDot g.preRelease.toList) with
    | some e => e
    | none => InitResult.ok
        ⟨pyInt g.major, pyInt g.minor, pyInt g.patch, g.preRelease, g.build⟩)
    = .indexError
  rw [hp]
  rfl

/-- C1 witness: `"1.0.0+build1"` matches the grammar with an empty
pre-release group and construction raises IndexError. -/
theorem claim_C1_witness :
    semvarFullmatch "1.0.0+build1" = some ⟨"1", "0", "0", "", "build1"⟩
      ∧ SemanticVersion.init "1.0.0+build1" = .indexError :=
  ⟨by decide, claim_C1 "1.0.0+build1" ⟨"1", "0", "0", "", "build1"⟩ (by decide) rfl⟩

/-- C2: the spec's precedence ordering does not hold on the code — `__lt__`
is a stub that always returns `NotImplemented`, so comparing the spec's
example versions raises TypeError instead of returning the stated ordering,
and the example `1.0.0` cannot even be constructed (IndexError). -/
theorem claim_C2 :
    SemanticVersion.init "1.0.0-alpha" = .ok ⟨1, 0, 0, "alpha", ""⟩
      ∧ SemanticVersion.init "1.0.0-alpha.1" = .ok ⟨1, 0, 0, "alpha.1", ""⟩
      ∧ pyLtOp ⟨1, 0, 0, "alpha", ""⟩ (.semver ⟨1, 0, 0, "alpha.1", ""⟩) = .typeError
      ∧ SemanticVersion.init "1.0.0" = .indexError :=
  ⟨by decide, by decide, rfl, by decide⟩

/-- C3: trichotomy fails on the code — for two constructible versions with
equal cores neither `a < b` nor `a > b` evaluates to a boolean (both raise
TypeError, because `__lt__` always returns `NotImplemented`), and `a == b`
is false, so none of the three relations holds. -/
theorem claim_C3 :
    SemanticVersion.init "1.0.0-alpha" = .ok ⟨1, 0, 0, "alpha", ""⟩
      ∧ SemanticVersion.init "1.0.0-beta" = .ok ⟨1, 0, 0, "beta", ""⟩
      ∧ pyLtOp ⟨1, 0, 0, "alpha", ""⟩ (.semver ⟨1, 0, 0, "beta", ""⟩) = .typeError
      ∧ pyGtOp ⟨1, 0, 0, "alpha", ""⟩ (.semver ⟨1, 0, 0, "beta", ""⟩) = .typeError
      ∧ pyEqOp ⟨1, 0, 0, "alpha", ""⟩ (.semver ⟨1, 0, 0, "beta", ""⟩) = false :=
  ⟨by decide, by decide, rfl, rfl, by decide⟩

/-- C4 counterexample: the claim says a non-numeric pre-release identifier
starting with `0` (as in `"1.0.0-0a"`) is accepted and that the rejection
fires only for all-digit identifiers, but the code rejects `"1.0.0-0a"`
with the leading-zero error although no identifier satisfies the spec's
all-digits condition. -/
theorem claim_C4_counterexample :
    SemanticVersion.init "1.0.0-0a" = .invalid leadingZeroMsg
      ∧ (splitOnDot "0a".toList).any specLeadingZeroViolation = false :=
  ⟨by decide, by decide⟩

/-- C4 amended: for grammar-matched inputs with a non-empty pre-release
group, construction fails with the leading-zero InvalidSemanticVersion iff
some pre-release identifier starts with `0` and is not exactly `"0"` —
whether or not it is numeric; `1.0.0-01` fails, `1.0.0-0` succeeds, and
build-metadata identifiers are never checked. -/
theorem claim_C4 :
    (∀ (s : String) (g : MatchGroups),
      semvarFullmatch s = some g → g.preRelease ≠ "" →
      (SemanticVersion.init s = .invalid leadingZeroMsg ↔
        hasLeadingZeroId (splitOnDot g.preRelease.toList) = true))
    ∧ SemanticVersion.init "1.0.0-01" = .invalid leadingZeroMsg
    ∧ SemanticVersion.init "1.0.0-0" = .ok ⟨1, 0, 0, "0", ""⟩
    ∧ SemanticVersion.init "1.0.0-x+01" = .ok ⟨1, 0, 0, "x", "01"⟩ := by
  refine ⟨?_, by decide, by decide, by decide⟩
  intro s g hm hne
  have hds : isDotSepId g.preRelease.toList = true := by
    rcases (semvarFullmatch_inv hm).1 with h | h
    · exact absurd h hne
    · exact h
  have hparts : ∀ p ∈ splitOnDot g.preRelease.toList, p ≠ [] :=
    fun p hp => (isDotSepId_parts _ hds p hp).1
  have hcp := checkPre_eq_of_nonempty _ hparts
  have hinit : SemanticVersion.init s
      = match checkPre (splitOnDot g.preRelease.toList) with
        | some e => e
        | none => .ok ⟨pyInt g.major, pyInt g.minor, pyInt g.patch,
            g.preRelease, g.build⟩ := by
    unfold SemanticVersion.init
    rw [hm]
  by_cases hlz : hasLeadingZeroId (splitOnDot g.preRelease.toList) = true
  · rw [if_pos hlz] at hcp
    constructor
    · intro _
      exact hlz
    · intro _
      rw [hinit, hcp]
  · rw [if_neg hlz] at hcp
    constructor
    · intro hbad
      rw [hinit, hcp] at hbad
      exact absurd hbad (by simp)
    · intro h
      exact absurd h hlz

/-- C4 witness: the amended equivalence applied to `"1.0.0-01"`. -/
theorem claim_C4_witness :
    SemanticVersion.init "1.0.0-01" = .invalid leadingZeroMsg :=
  (claim_C4.1 "1.0.0-01" ⟨"1", "0", "0", "01", ""⟩ (by decide)
    (by decide)).mpr (by decide)

/-- C5: every input the regex does not full-match is rejected with the
grammar-mismatch InvalidSemanticVersion — in particular `"1.2"`, `"1.2.x"`
and `""` — while `"01.2.3"` passes the grammar match with leading zeros in
the core, and `int` of its captured groups gives major 1, minor 2, patch 3. -/
theorem claim_C5 :
    (∀ s : String, semvarFullmatch s = none →
      SemanticVersion.init s = .invalid grammarMsg)
    ∧ semvarFullmatch "1.2" = none
    ∧ semvarFullmatch "1.2.x" = none
    ∧ semvarFullmatch "" = none
    ∧ semvarFullmatch "01.2.3" = some ⟨"01", "2", "3", "", ""⟩
    ∧ pyInt "01" = 1 ∧ pyInt "2" = 2 ∧ pyInt "3" = 3 := by
  refine ⟨?_, by decide, by decide, by decide, by decide, by decide, by decide, by decide⟩
  intro s h
  unfold SemanticVersion.init
  rw [h]

/-- C5 witness: the universal rejection statement applied to `"not-a-version"`. -/
theorem claim_C5_witness :
    SemanticVersion.init "not-a-version" = .invalid grammarMsg :=
  claim_C5.1 "not-a-version" (by decide)

/-- C6: round-trip — every successfully constructed value parses back from
its `__str__` output to an equal value (here even field-for-field equal,
which implies `__eq__` equality), and the printed form is the canonical
`major.minor.patch-preRelease[+build]` with the build segment omitted
exactly when empty (the pre-release of a constructible value is never
empty). -/
theorem claim_C6 : ∀ (s : String) (v : SemanticVersion),
    SemanticVersion.init s = .ok v →
    SemanticVersion.init v.toString = .ok v
      ∧ v.toString.toList
        = natDigits v.major ++ '.' :: (natDigits v.minor ++ '.' :: (natDigits v.patch
            ++ '-' :: (v.preRelease.toList
              ++ (if v.build = "" then [] else '+' :: v.build.toList)))) := by
  intro s v h
  obtain ⟨g, hg, hc, hv⟩ := init_ok_inv h
  have hpre_ne : v.preRelease ≠ "" := init_ok_pre_ne h
  have hvpre : v.preRelease = g.preRelease := by rw [hv]
  have hvbld : v.build = g.build := by rw [hv]
  obtain ⟨hp, hbinv⟩ := semvarFullmatch_inv hg
  have hpre : isDotSepId v.preRelease.toList = true := by
    rw [hvpre]
    rcases hp with hp | hp
    · rw [← hvpre] at hp
      exact absurd hp hpre_ne
    · exact hp
  have hbld : v.build = "" ∨ isDotSepId v.build.toList = true := by
    rw [hvbld]
    exact hbinv
  have hcan := semvarFullmatch_canonical v hpre hbld
  refine ⟨?_, toString_toList v hpre_ne⟩
  unfold SemanticVersion.init
  rw [hcan]
  show (match checkPre (splitOnDot v.preRelease.toList) with
    | some e => e
    | none => InitResult.ok ⟨pyInt (pyNatStr v.major), pyInt (pyNatStr v.minor),
        pyInt (pyNatStr v.patch), v.preRelease, v.build⟩)
    = .ok v
  have hc' : checkPre (splitOnDot v.preRelease.toList) = none := by
    rw [hvpre]
    exact hc
  rw [hc', pyInt_pyNatStr, pyInt_pyNatStr, pyInt_pyNatStr]

/-- C6 witness: the round-trip applied to the value built from
`"1.2.3-alpha+b-1"`. -/
theorem claim_C6_witness :
    SemanticVersion.init (SemanticVersion.toString ⟨1, 2, 3, "alpha", "b-1"⟩)
      = .ok ⟨1, 2, 3, "alpha", "b-1"⟩ :=
  (claim_C6 "1.2.3-alpha+b-1" ⟨1, 2, 3, "alpha", "b-1"⟩ (by decide)).1

/-- C7: `__eq__` between two SemanticVersion values is exactly the equality
of major, minor, patch and the preRelease string (build metadata excluded),
but the claim's concrete example is unreachable — constructing
`"1.0.0+build1"` or `"1.0.0+build2"` raises IndexError instead of
succeeding, so the stated comparison never happens; on directly assembled
values with those fields the equality would be true. -/
theorem claim_C7 :
    (∀ a b : SemanticVersion,
      pyEqOp a (.semver b)
        = (a.major == b.major && a.minor == b.minor && a.patch == b.patch
            && a.preRelease == b.preRelease))
    ∧ SemanticVersion.init "1.0.0+build1" = .indexError
    ∧ SemanticVersion.init "1.0.0+build2" = .indexError
    ∧ pyEqOp ⟨1, 0, 0, "", "build1"⟩ (.semver ⟨1, 0, 0, "", "build2"⟩) = true :=
  ⟨fun a b => rfl, by decide, by decide, by decide⟩

/-- C8: the leading `v` is indeed stripped by the grammar — `"v1.2.3"`
full-matches with groups 1, 2, 3 — but construction of `"v1.2.3"` does not
succeed as claimed: it raises IndexError because the pre-release group is
empty; with a pre-release present (`"v1.2.3-a"`) construction succeeds with
major 1, minor 2, patch 3 and `__str__` emits no `v`. -/
theorem claim_C8 :
    semvarFullmatch "v1.2.3" = some ⟨"1", "2", "3", "", ""⟩
      ∧ SemanticVersion.init "v1.2.3" = .indexError
      ∧ SemanticVersion.init "v1.2.3-a" = .ok ⟨1, 2, 3, "a", ""⟩
      ∧ SemanticVersion.toString ⟨1, 2, 3, "a", ""⟩ = "1.2.3-a" :=
  ⟨by decide, by decide, by decide, by decide⟩

/-- C9: the non-string TypeError check does run before grammar matching and
the two InvalidSemanticVersion messages are distinct, but the claim that
InvalidSemanticVersion is the only parse-failure kind on textual input is
violated: the textual input `"1.0.0"` raises IndexError. -/
theorem claim_C9 :
    initPy (.str "1.0.0") = .indexError
      ∧ initPy (.int 3) = .typeError
      ∧ initPy .pyNone = .typeError
      ∧ initPy (.str "bogus") = .invalid grammarMsg
      ∧ initPy (.str "1.0.0-01") = .invalid leadingZeroMsg
      ∧ grammarMsg ≠ leadingZeroMsg :=
  ⟨by decide, rfl, rfl, by decide, by decide, by decide⟩

/-- C10: comparing against a value of an unrelated type makes both `__eq__`
and `__lt__` return the NotImplemented sentinel (no exception, no plain
boolean from the dunder), and the `==` operator then falls back to
"not equal". -/
theorem claim_C10 : ∀ (a : SemanticVersion) (x : PyValue),
    (∀ v, x ≠ PyValue.semver v) →
    dunderEq a x = .notImplemented
      ∧ dunderLt a x = .notImplemented
      ∧ pyEqOp a x = false := by
  intro a x hx
  cases x with
  | semver v => exact absurd rfl (hx v)
  | str s => exact ⟨rfl, rfl, rfl⟩
  | int n => exact ⟨rfl, rfl, rfl⟩
  | pyNone => exact ⟨rfl, rfl, rfl⟩

/-- C10 witness: comparing a version against the string `"1.0.0"`. -/
theorem claim_C10_witness :
    dunderEq ⟨1, 0, 0, "a", ""⟩ (.str "1.0.0") = .notImplemented
      ∧ dunderLt ⟨1, 0, 0, "a", ""⟩ (.str "1.0.0") = .notImplemented
      ∧ pyEqOp ⟨1, 0, 0, "a", ""⟩ (.str "1.0.0") = false :=
  claim_C10 ⟨1, 0, 0, "a", ""⟩ (.str "1.0.0") (fun v h => PyValue.noConfusion h)

end ChangelogHandler
